import Mathlib

/-!
Verification of the PharUtils.js archive codec (the 2018 `pharutils.js` source,
the version the claim line numbers refer to).

JavaScript strings holding binary data are modelled as `List Nat` of character
codes (octets are values `< 256`).  JavaScript exceptions are modelled with
`Except JsErr`.  The external collaborators (raw DEFLATE/INFLATE and the four
hash functions) are parameters of the codec functions, as the specification
treats them as opaque capabilities.
-/

set_option maxRecDepth 4000

/-- The error kinds raised by the library (each `throw Error(...)` site, plus the
implicit JavaScript runtime errors: `referenceError` for reading an unbound
identifier, `typeError` for calling a non-function property). -/
inductive JsErr where
  | magicCorrupt
  | unknownSignature
  | signatureInvalid
  | stubNotFound
  | outOfBounds
  | fileCorrupt
  | unsupportedCompression
  | compressionError
  | referenceError
  | typeError
  | emptyArchive
  | invalidStub
  | permissionError
  deriving DecidableEq, Repr

/-- Byte list of an ASCII Lean string (mirrors how the source stores bytes in
JS strings via char codes). -/
def strBytes (s : String) : List Nat := s.toList.map Char.toNat

/-- `PharUtils.Binary.readLInt`: `num |= buffer.charCodeAt(i) << (8*i)` for
`i = 0..3`, then `num >>> 0`.  Each `|=` operates on 32-bit patterns, so every
or-term is reduced modulo `2^32`; `charCodeAt` past the end is `NaN`, which
shifts to `0`, hence `getD _ 0`. -/
def readLInt (buffer : List Nat) : Nat :=
  (List.range 4).foldl (fun num i => num ||| ((buffer.getD i 0 <<< (8 * i)) % 2 ^ 32)) 0

/-- `PharUtils.Binary.writeLInt`: `String.fromCharCode((num >> (8*i)) & 0xff)`
for `i = 0..3`.  JavaScript `>>` first converts `num` to a 32-bit integer
(two's complement, i.e. the pattern `num % 2^32`), and `& 0xff` extracts the
byte of that pattern. -/
def writeLInt (num : Nat) : List Nat :=
  (List.range 4).map (fun i => ((num % 2 ^ 32) >>> (8 * i)) &&& 255)

/-- `PharUtils.Binary.readLShort`: same loop with `i = 0..1` and no final
`>>> 0`. -/
def readLShort (buffer : List Nat) : Nat :=
  (List.range 2).foldl (fun num i => num ||| ((buffer.getD i 0 <<< (8 * i)) % 2 ^ 32)) 0

/-- `PharUtils.Binary.writeLShort`. -/
def writeLShort (num : Nat) : List Nat :=
  (List.range 2).map (fun i => ((num % 2 ^ 32) >>> (8 * i)) &&& 255)

/-- The CRC table of `makeCRCTable` (bit patterns of the signed 32-bit JS
values). -/
def crc32Table : List Nat :=
  (List.range 256).map (fun n =>
    (List.range 8).foldl
      (fun c _ => if c &&& 1 = 1 then 0xEDB88320 ^^^ (c >>> 1) else c >>> 1) n)

/-- `crc32(str)` from the source: init `0 ^ (-1)` (pattern `0xFFFFFFFF`), table
step per char, final `(crc ^ (-1)) >>> 0`.  All JS int32 operations are
tracked on their unsigned 32-bit patterns. -/
def crc32 (str : List Nat) : Nat :=
  (str.foldl
    (fun crc ch => (crc >>> 8) ^^^ crc32Table.getD ((crc ^^^ ch) &&& 255) 0)
    0xFFFFFFFF) ^^^ 0xFFFFFFFF

/-- `PharUtils.BinaryBuffer`: a string buffer plus a read offset. -/
structure BinaryBuffer where
  buffer : List Nat
  offset : Nat
  deriving DecidableEq, Repr

/-- `BinaryBuffer.get(length)`.  A negative `length` is replaced by
`max(0, buffer.length - offset)`; `length == 0` returns `""` without moving.
Otherwise the source executes `(this.offset += length) > this.buffer.length`
first, so the offset is advanced *before* the bounds check, and the
out-of-bounds error leaves the advanced offset behind. -/
def BinaryBuffer.get (bb : BinaryBuffer) (len0 : Int) :
    Except JsErr (List Nat) × BinaryBuffer :=
  let len : Int := if len0 < 0 then max 0 ((bb.buffer.length : Int) - (bb.offset : Int)) else len0
  if len = 0 then (.ok [], bb)
  else
    let n := len.toNat
    let bb' : BinaryBuffer := { bb with offset := bb.offset + n }
    if bb.buffer.length < bb.offset + n then (.error .outOfBounds, bb')
    else (.ok ((bb.buffer.drop bb.offset).take n), bb')

/-- `BinaryBuffer.put(data)`: append to the buffer. -/
def BinaryBuffer.put (bb : BinaryBuffer) (data : List Nat) : BinaryBuffer :=
  { bb with buffer := bb.buffer ++ data }

/-- `get` repackaged for exception-style composition in the decoder. -/
def bbGet (bb : BinaryBuffer) (len0 : Int) : Except JsErr (List Nat × BinaryBuffer) :=
  match BinaryBuffer.get bb len0 with
  | (.ok r, bb') => .ok (r, bb')
  | (.error e, _) => .error e

/-- `BinaryBuffer.getLInt`. -/
def bbGetLInt (bb : BinaryBuffer) : Except JsErr (Nat × BinaryBuffer) := do
  let (b4, bb') ← bbGet bb 4
  pure (readLInt b4, bb')

/-- `BinaryBuffer.getLShort`. -/
def bbGetLShort (bb : BinaryBuffer) : Except JsErr (Nat × BinaryBuffer) := do
  let (b2, bb') ← bbGet bb 2
  pure (readLShort b2, bb')

/-- `BinaryBuffer.getString`: `this.get(this.getLInt())`. -/
def bbGetString (bb : BinaryBuffer) : Except JsErr (List Nat × BinaryBuffer) := do
  let (n, bb') ← bbGetLInt bb
  bbGet bb' (n : Int)

/-- `PharUtils.PharFile` in-memory state: name, uncompressed contents,
compression type (`0x0000` NONE / `0x1000` GZ / `0x2000` BZIP2), permission
bits, timestamp, metadata. -/
structure PharFile where
  name : List Nat
  contents : List Nat
  compression_type : Nat
  permission : Nat
  timestamp : Nat
  metadata : List Nat
  deriving DecidableEq, Repr

/-- `PharFile.getCompressedContents`: the `switch` has a `COMPRESSION_GZ` case
calling `Zlib.RawDeflate` and a `default` returning the raw contents (so
`NONE` — and also `BZIP2` — fall through to the identity). -/
def getCompressedContents (deflate : List Nat → List Nat) (f : PharFile) : List Nat :=
  if f.compression_type = 0x1000 then deflate f.contents else f.contents

/-- `PharFile.getPharFlags`: `permission | compression_type`. -/
def getPharFlags (f : PharFile) : Nat :=
  f.permission ||| f.compression_type

/-- `PharFile.setPermission(permission)`.  The source tests
`permission > 4095 || perm < 0`, but `perm` is an unbound identifier (the
parameter is named `permission`): if the first disjunct is false, evaluating
`perm` raises a `ReferenceError`, so the assignment `this.permission =
permission` is unreachable and only `permission > 4095` ever produces the
intended range error. -/
def setPermission (permission : Int) : Except JsErr Int :=
  if permission > 4095 then .error .permissionError
  else .error .referenceError

/-- `PharFile.setTimestamp(timestamp)`.  The source's first statement is
`if (time < 0)`, but `time` is an unbound identifier (the parameter is named
`timestamp`), so every call raises a `ReferenceError` before anything is
stored. -/
def setTimestamp (timestamp : Int) : Except JsErr Int :=
  .error .referenceError

/-- The `PharFile` constructor: sets `this.name = name || 'newfile'`, then runs
`setCompressionType` (throwing on a compression other than NONE/GZ), then
`setContents`, then `setTimestamp` — which always raises `ReferenceError`
(unbound `time`), so no `PharFile` instance is ever produced. -/
def pharFileNew (inflate : List Nat → List Nat) (name contents : List Nat)
    (compression : Nat) (permission timestamp : Nat) (metadata : List Nat) :
    Except JsErr PharFile :=
  if compression = 0 ∨ compression = 0x1000 then .error .referenceError
  else .error .unsupportedCompression

/-- The state of `this.files` of a `Phar`.  `setFiles` initializes it to the
plain object `{ }` (constructor `obj`); `loadPharData` re-initializes it to a
real array `[]`.  `delete files[i]` on an array leaves a hole, modelled as
`none`; `for..in` visits the present entries in ascending index order. -/
inductive FilesState where
  | obj
  | arr (l : List (Option PharFile))
  deriving DecidableEq, Repr

/-- Replace the first present entry with the given name by a hole
(`Phar.removeFile` does `delete this.files[i]; break`). -/
def removeFirstByName : List (Option PharFile) → List Nat → List (Option PharFile)
  | [], _ => []
  | none :: t, name => none :: removeFirstByName t name
  | some f :: t, name =>
    if f.name = name then none :: t else some f :: removeFirstByName t name

/-- `Phar.removeFile(name)`.  On the plain object `{ }` the `for..in` loop
visits nothing. -/
def jsRemoveFileS : FilesState → List Nat → FilesState
  | .obj, _ => .obj
  | .arr l, name => .arr (removeFirstByName l name)

/-- `Phar.addFile(file)`: `removeFile(file.getName())` then
`this.files.push(file)`.  When `this.files` is the plain object left by
`setFiles`, `push` is not a function and a `TypeError` is raised. -/
def jsAddFileS (s : FilesState) (f : PharFile) : Except JsErr FilesState :=
  match jsRemoveFileS s f.name with
  | .obj => .error .typeError
  | .arr l => .ok (.arr (l ++ [some f]))

/-- `Phar.getFile(name)`: first present entry with the given name. -/
def jsGetFileS : FilesState → List Nat → Option PharFile
  | .obj, _ => none
  | .arr l, name => (l.filterMap id).find? (fun f => f.name == name)

/-- `Phar.setFiles(files)`: `this.files = { };` then `addFile` on each element
in order (so the very first `addFile` hits the missing `push`). -/
def jsSetFiles (files : List PharFile) : Except JsErr FilesState :=
  files.foldl (fun acc f => do jsAddFileS (← acc) f) (.ok .obj)

/-- `PharUtils.STUB_END`: the canonical stub terminator
`__HALT_COMPILER(); ?>\r\n`. -/
def STUB_END : List Nat := strBytes ("__HALT_COMPILER(); ?>\r\n")

/-- `PharUtils.END_MAGIC`: the trailer `GBMB`. -/
def magicBytes : List Nat := strBytes ("GBMB")

/-- The lower-cased search token of `Phar.setStub`. -/
def haltToken : List Nat := strBytes ("__halt_compiler();")

/-- `String.toLowerCase` restricted to the code points `0..255` the library's
byte strings use: ASCII `A`–`Z` and Latin-1 `À`–`Þ` (except `×`) map to
`+32`, everything else in that range is unchanged. -/
def jsToLower (c : Nat) : Nat :=
  if (65 ≤ c ∧ c ≤ 90) ∨ (192 ≤ c ∧ c ≤ 222 ∧ c ≠ 215) then c + 32 else c

/-- `String.indexOf`: position of the first occurrence of `tok`, if any. -/
def jsIndexOf : List Nat → List Nat → Option Nat
  | s, tok =>
    match s with
    | [] => if tok = [] then some 0 else none
    | c :: t =>
      if tok.isPrefixOf (c :: t) then some 0
      else (jsIndexOf t tok).map (· + 1)

/-- `Phar.setStub(stub)`: find the case-insensitive token
`__halt_compiler();`; if absent throw; otherwise keep the part of `stub`
before it and append the canonical terminator. -/
def setStub (stub : List Nat) : Except JsErr (List Nat) :=
  match jsIndexOf (stub.map jsToLower) haltToken with
  | none => .error .invalidStub
  | some pos => .ok (stub.take pos ++ STUB_END)

/-- `tok` occurs in `s` at position `i`. -/
def occursAt (tok s : List Nat) (i : Nat) : Prop :=
  (s.drop i).take tok.length = tok

instance (tok s : List Nat) (i : Nat) : Decidable (occursAt tok s i) := by
  unfold occursAt; infer_instance

/-- `PharUtils.Phar` in-memory state (the fields of `this` that the codec
reads and writes; `files` is kept as the plain entry list, the form
`loadPharData` creates). -/
structure Phar where
  stub : List Nat
  aliasStr : List Nat
  metadata : List Nat
  signature_type : Nat
  flags : Nat
  manifest_api : Nat
  files : List PharFile
  deriving DecidableEq, Repr

/-- `BinaryBuffer.putString`: 32-bit length prefix followed by the bytes. -/
def putStrB (data : List Nat) : List Nat :=
  writeLInt data.length ++ data

/-- The manifest bytes one file contributes in `savePharData`: name,
uncompressed size, timestamp, compressed size, CRC-32 of the uncompressed
contents, flags word, metadata. -/
def fileManifestEntry (deflate : List Nat → List Nat) (f : PharFile) : List Nat :=
  putStrB f.name ++ writeLInt f.contents.length ++ writeLInt f.timestamp ++
    writeLInt (getCompressedContents deflate f).length ++
    writeLInt (crc32 f.contents) ++ writeLInt (getPharFlags f) ++ putStrB f.metadata

/-- The manifest buffer of `savePharData`: files count, manifest API, flags,
alias, global metadata, then the per-file records in entry order. -/
def manifestBytes (deflate : List Nat → List Nat) (A : Phar) : List Nat :=
  writeLInt A.files.length ++ writeLShort A.manifest_api ++ writeLInt A.flags ++
    putStrB A.aliasStr ++ putStrB A.metadata ++
    (A.files.map (fileManifestEntry deflate)).flatten

/-- Everything `savePharData` writes before the signature: the stub, the
length-prefixed manifest, and the concatenated compressed contents. -/
def encBody (deflate : List Nat → List Nat) (A : Phar) : List Nat :=
  A.stub ++ putStrB (manifestBytes deflate A) ++
    (A.files.map (getCompressedContents deflate)).flatten

/-- Digest lengths of the four accepted signature types. -/
def hashLen (k : Nat) : Nat :=
  if k = 1 then 16 else if k = 2 then 20 else if k = 4 then 32
  else if k = 8 then 64 else 0

/-- `k` is one of `SIGNATURE_MD5/SHA1/SHA256/SHA512`. -/
def validSig (k : Nat) : Prop := k = 1 ∨ k = 2 ∨ k = 4 ∨ k = 8

instance (k : Nat) : Decidable (validSig k) := by
  unfold validSig; infer_instance

/-- `Phar.savePharData`: refuse an empty archive, write stub + length-prefixed
manifest + contents, then append `hasher.raw(buffer)`, the signature type as
a little-endian u32, and the magic.  The hash engine is a parameter
`hashF : signature type → bytes → digest`. -/
def savePharData (hashF : Nat → List Nat → List Nat)
    (deflate : List Nat → List Nat) (A : Phar) : Except JsErr (List Nat) :=
  if A.files.length = 0 then .error .emptyArchive
  else if validSig A.signature_type then
    .ok (encBody deflate A ++ hashF A.signature_type (encBody deflate A) ++
      writeLInt A.signature_type ++ magicBytes)
  else .error .unknownSignature

/-- The decoder's per-file loop: read the manifest record (skipping the
4-byte uncompressed-size field by bumping the offset), read the compressed
bytes from the outer cursor, construct the `PharFile` (which always raises
`ReferenceError`, see `pharFileNew`), check the CRC, `addFile`. -/
def loadFiles (inflate : List Nat → List Nat) :
    Nat → BinaryBuffer → BinaryBuffer → List PharFile →
    Except JsErr (List PharFile × BinaryBuffer × BinaryBuffer)
  | 0, mb, bb, acc => .ok (acc, mb, bb)
  | n + 1, mb, bb, acc => do
    let (fname, mb1) ← bbGetString mb
    let mb2 : BinaryBuffer := { mb1 with offset := mb1.offset + 4 }
    let (ts, mb3) ← bbGetLInt mb2
    let (size, mb4) ← bbGetLInt mb3
    let (rcrc, mb5) ← bbGetLInt mb4
    let (fflags, mb6) ← bbGetLInt mb5
    let (fmeta, mb7) ← bbGetString mb6
    let (contents, bb1) ← bbGet bb (size : Int)
    let f ← pharFileNew inflate fname contents (fflags &&& 0xf000)
      (fflags &&& 0xfff) ts fmeta
    if rcrc ≠ crc32 f.contents then .error .fileCorrupt
    else
      let acc' := (removeFirstByName (acc.map some) f.name).filterMap id ++ [f]
      loadFiles inflate n mb7 bb1 acc'

/-- `Phar.loadPharData(buffer)`: check the magic, read the signature type,
verify the raw digest over the prefix, locate the first stub terminator,
parse the length-prefixed manifest header, then run the per-file loop.
`self` is the `Phar` the method is invoked on (its untouched fields, e.g.
`signature_type`, survive). -/
def loadPharData (hashF : Nat → List Nat → List Nat)
    (inflate : List Nat → List Nat) (self : Phar) (buf : List Nat) :
    Except JsErr Phar :=
  let L := buf.length
  if buf.drop (L - 4) ≠ magicBytes then .error .magicCorrupt
  else
    let st := readLInt ((buf.take (L - 4)).drop (L - 8))
    if validSig st then
      let hl := hashLen st
      let hash := (buf.take (L - 8)).drop (L - 8 - hl)
      let body := buf.take (L - 8 - hl)
      if hashF st body ≠ hash then .error .signatureInvalid
      else
        match jsIndexOf body STUB_END with
        | none => .error .stubNotFound
        | some idx => do
          let bb0 : BinaryBuffer := ⟨body, 0⟩
          let (stub, bb1) ← bbGet bb0 ((idx + STUB_END.length : Nat) : Int)
          let (manifestStr, bb2) ← bbGetString bb1
          let mb0 : BinaryBuffer := ⟨manifestStr, 0⟩
          let (files_count, mb1) ← bbGetLInt mb0
          let (api, mb2) ← bbGetLShort mb1
          let (flags, mb3) ← bbGetLInt mb2
          let (aliasV, mb4) ← bbGetString mb3
          let (meta, mb5) ← bbGetString mb4
          let (files, _, _) ← loadFiles inflate files_count mb5 bb2 []
          .ok { self with
                stub := stub
                manifest_api := api
                flags := flags
                aliasStr := aliasV
                metadata := meta
                files := files }
    else .error .unknownSignature

deriving instance DecidableEq for Except

/-- A single-bit flip: XOR bit `b` of the octet at position `p`. -/
def flipAt (l : List Nat) (p b : Nat) : List Nat :=
  l.set p ((l.getD p 0) ^^^ (1 <<< b))

/-- Every entry of the list is an octet. -/
def bytesLT (l : List Nat) : Prop := ∀ c ∈ l, c < 256

/-- The byte-string fields of an archive hold octets (the data-model
invariant of the specification's octet strings). -/
def pharBytesWF (A : Phar) : Prop :=
  bytesLT A.stub ∧ bytesLT A.aliasStr ∧ bytesLT A.metadata ∧
    ∀ f ∈ A.files, bytesLT f.name ∧ bytesLT f.contents ∧ bytesLT f.metadata

instance (l : List Nat) : Decidable (bytesLT l) := by
  unfold bytesLT
  infer_instance

instance (A : Phar) : Decidable (pharBytesWF A) := by
  unfold pharBytesWF bytesLT
  infer_instance

/-- A trivial stand-in for the external hash engine: an all-zero digest of
the correct length.  Deterministic, so encode/decode agree on it. -/
def zeroHash (k : Nat) (bs : List Nat) : List Nat := List.replicate (hashLen k) 0

/-- A stand-in for the external hash engine that is injective on octet
strings: the base-257 value of the bytes (shifted by one) followed by zero
padding to the digest length. -/
def injHash (k : Nat) (bs : List Nat) : List Nat :=
  Nat.ofDigits 257 (bs.map (· + 1)) :: List.replicate (hashLen k - 1) 0

/-- The entry of the specification's minimal scenario: `a.txt` containing
`hi`, no compression, permission `0o666`, timestamp 0, no metadata. -/
def F0 : PharFile := ⟨strBytes ("a.txt"), strBytes ("hi"), 0, 438, 0, []⟩

/-- The minimal archive: default stub, SHA-1 signature kind, default flags
and manifest API, one entry `F0`. -/
def A0 : Phar := ⟨strBytes ("<?php ") ++ STUB_END, [], [], 2, 0x10000, 17, [F0]⟩

/-- `A0` encoded with the zero-digest hash engine. -/
def E1 : List Nat :=
  encBody id A0 ++ zeroHash 2 (encBody id A0) ++ writeLInt 2 ++ magicBytes

/-- `A0` encoded with the injective hash engine. -/
def E2 : List Nat :=
  encBody id A0 ++ injHash 2 (encBody id A0) ++ writeLInt 2 ++ magicBytes

/-- A hand-assembled archive buffer identical to `E1` except that the stored
CRC-32 of `a.txt` is off by one bit, while the (zero-digest) signature still
verifies: the CRC mismatch the decoder is supposed to reject. -/
def c3body : List Nat :=
  A0.stub ++ putStrB (writeLInt 1 ++ writeLShort 17 ++ writeLInt 0x10000 ++
    putStrB [] ++ putStrB [] ++ (putStrB (strBytes ("a.txt")) ++ writeLInt 2 ++
    writeLInt 0 ++ writeLInt 2 ++ writeLInt (crc32 (strBytes ("hi")) ^^^ 1) ++
    writeLInt 438 ++ putStrB [])) ++ strBytes ("hi")

/-- The full corrupted-CRC buffer. -/
def c3buf : List Nat := c3body ++ zeroHash 2 c3body ++ writeLInt 2 ++ magicBytes

theorem lor_lt_pow {a b n : Nat} (ha : a < 2 ^ n) (hb : b < 2 ^ n) : a ||| b < 2 ^ n := by
  apply Nat.lt_pow_two_of_testBit
  intro i hi
  have h2 : 2 ^ n ≤ 2 ^ i := Nat.pow_le_pow_right (by norm_num) hi
  rw [Nat.testBit_or, Nat.testBit_lt_two_pow (lt_of_lt_of_le ha h2),
    Nat.testBit_lt_two_pow (lt_of_lt_of_le hb h2)]
  rfl

theorem readLInt_lt (bs : List Nat) : readLInt bs < 2 ^ 32 := by
  have hr : List.range 4 = [0, 1, 2, 3] := by decide
  simp only [readLInt, hr, List.foldl]
  have hp : (0 : Nat) < 2 ^ 32 := by positivity
  refine lor_lt_pow (lor_lt_pow (lor_lt_pow (lor_lt_pow hp ?_) ?_) ?_) ?_ <;>
    exact Nat.mod_lt _ (by positivity)

theorem readLInt_writeLInt (n : Nat) (h : n < 2 ^ 32) : readLInt (writeLInt n) = n := by
  have hr4 : List.range 4 = [0, 1, 2, 3] := by decide
  have hm : n % 2 ^ 32 = n := Nat.mod_eq_of_lt h
  have h255 : (255 : Nat) = 2 ^ 8 - 1 := by norm_num
  simp only [readLInt, writeLInt, hr4, List.foldl, List.map, List.getD, List.get?, hm]
  apply Nat.eq_of_testBit_eq
  intro i
  have ht : ∀ k, Nat.testBit 255 k = decide (k < 8) := by
    intro k
    rw [h255, Nat.testBit_two_pow_sub_one]
  simp only [Nat.testBit_or, Nat.testBit_mod_two_pow, Nat.testBit_shiftLeft,
    Nat.testBit_and, Nat.testBit_shiftRight, Nat.zero_testBit, Bool.false_or]
  by_cases h32 : i < 32
  · by_cases h8 : i < 8
    · have e0 : ¬(8 * 1 ≤ i) := by omega
      have e1 : ¬(8 * 2 ≤ i) := by omega
      have e2 : ¬(8 * 3 ≤ i) := by omega
      simp [ht, h8, h32, e0, e1, e2]
    · by_cases h16 : i < 16
      · have e0 : 8 * 1 ≤ i := by omega
        have e1 : ¬(8 * 2 ≤ i) := by omega
        have e2 : ¬(8 * 3 ≤ i) := by omega
        have e3 : i - 8 * 1 < 8 := by omega
        have e4 : 8 * 1 + (i - 8 * 1) = i := by omega
        simp [ht, h8, h16, h32, e0, e1, e2, e3, e4]
      · by_cases h24 : i < 24
        · have e0 : 8 * 1 ≤ i := by omega
          have e1 : 8 * 2 ≤ i := by omega
          have e2 : ¬(8 * 3 ≤ i) := by omega
          have e3 : ¬(i - 8 * 1 < 8) := by omega
          have e4 : i - 8 * 2 < 8 := by omega
          have e5 : 8 * 2 + (i - 8 * 2) = i := by omega
          simp [ht, h8, h16, h24, h32, e0, e1, e2, e3, e4, e5]
        · have e0 : 8 * 1 ≤ i := by omega
          have e1 : 8 * 2 ≤ i := by omega
          have e2 : 8 * 3 ≤ i := by omega
          have e3 : ¬(i - 8 * 1 < 8) := by omega
          have e4 : ¬(i - 8 * 2 < 8) := by omega
          have e5 : i - 8 * 3 < 8 := by omega
          have e6 : 8 * 3 + (i - 8 * 3) = i := by omega
          simp [ht, h8, h16, h24, h32, e0, e1, e2, e3, e4, e5, e6]
  · have hn : n.testBit i = false := by
      apply Nat.testBit_lt_two_pow
      calc n < 2 ^ 32 := h
        _ ≤ 2 ^ i := Nat.pow_le_pow_right (by norm_num) (by omega)
    simp [ht, h32, hn]

/-- C1: the round-trip `decode (encode A)` cannot return the archive: for the
minimal one-entry archive `A0` the encoder succeeds, but decoding the
produced buffer raises a `ReferenceError`, because the `PharFile`
constructor's `setTimestamp` reads the unbound identifier `time` before any
entry can be built.  The round-trip claim is therefore broken by a slip in
the code, not refuted as intent. -/
theorem c1_decode_encode_raises_referenceError :
    savePharData zeroHash id A0 = Except.ok E1 ∧
    loadPharData zeroHash id A0 E1 = Except.error JsErr.referenceError := by
  decide

/-- C3: the encoder does write `crc32(contents)` into the CRC slot (visible in
`fileManifestEntry`), but the decoder cannot reject a CRC mismatch with
`FileCorrupt`: on a buffer whose stored CRC differs by one bit from
`crc32("hi")` (and whose signature verifies), decoding raises
`ReferenceError` inside the `PharFile` constructor, before the CRC
comparison is reached. -/
theorem c3_decode_crc_mismatch_raises_referenceError :
    crc32 (strBytes ("hi")) ^^^ 1 ≠ crc32 (strBytes ("hi")) ∧
    loadPharData zeroHash id A0 c3buf = Except.error JsErr.referenceError := by
  decide

/-- C5: `addFile` cannot work on a freshly constructed archive: the `Phar`
constructor runs `setFiles([])`, which leaves `this.files` as a plain object
`{ }`, and `addFile` then calls `this.files.push`, which is not a function —
a `TypeError` — instead of appending the entry. -/
theorem c5_addFile_on_fresh_phar_raises_typeError :
    jsSetFiles [] = Except.ok FilesState.obj ∧
    jsAddFileS FilesState.obj F0 = Except.error JsErr.typeError := by
  decide

/-- C6: `setPermission` never succeeds: for an in-range permission such as 438
(and likewise for negative inputs) it raises `ReferenceError` because the
range test reads the unbound identifier `perm`; only `p > 4095` produces the
intended range error. -/
theorem c6_setPermission_raises_referenceError :
    setPermission 438 = Except.error JsErr.referenceError ∧
    setPermission 0 = Except.error JsErr.referenceError ∧
    setPermission (-1) = Except.error JsErr.referenceError ∧
    setPermission 4096 = Except.error JsErr.permissionError := by
  decide

/-- C7: `setTimestamp` never stores anything: every call raises
`ReferenceError` because its guard reads the unbound identifier `time`. -/
theorem c7_setTimestamp_raises_referenceError :
    setTimestamp 0 = Except.error JsErr.referenceError ∧
    setTimestamp 1234 = Except.error JsErr.referenceError ∧
    setTimestamp (-5) = Except.error JsErr.referenceError := by
  decide

/-- C2 counterexample: flipping bit 0 of the first octet of the
signature-kind field (a position strictly before the magic trailer) of the
validly encoded buffer `E1` makes the decoder fail with `UnknownSignature`,
an error kind outside the claimed set {SignatureInvalid, FileCorrupt,
TruncatedManifest, OutOfBounds, PreludeTerminatorMissing}. -/
theorem c2_counterexample_unknown_signature :
    (E1.length - 8) + 4 < E1.length ∧
    loadPharData zeroHash id A0 (flipAt E1 (E1.length - 8) 0) =
      Except.error JsErr.unknownSignature ∧
    JsErr.unknownSignature ≠ JsErr.signatureInvalid ∧
    JsErr.unknownSignature ≠ JsErr.fileCorrupt ∧
    JsErr.unknownSignature ≠ JsErr.outOfBounds ∧
    JsErr.unknownSignature ≠ JsErr.stubNotFound := by
  decide

/-- C9: `readLInt` is a left inverse of `writeLInt` on unsigned 32-bit values,
and `readLInt` always yields an unsigned value below `2^32` (the final
`>>> 0` of the source), even when bit 31 is set. -/
theorem c9_readLInt_writeLInt_roundtrip :
    (∀ n : Nat, n < 2 ^ 32 → readLInt (writeLInt n) = n) ∧
    ∀ bs : List Nat, readLInt bs < 2 ^ 32 :=
  ⟨readLInt_writeLInt, readLInt_lt⟩

theorem c9_witness :
    readLInt (writeLInt (2 ^ 31 + 5)) = 2 ^ 31 + 5 ∧
    readLInt [255, 255, 255, 255] < 2 ^ 32 :=
  ⟨c9_readLInt_writeLInt_roundtrip.1 (2 ^ 31 + 5) (by norm_num),
    c9_readLInt_writeLInt_roundtrip.2 [255, 255, 255, 255]⟩

/-- C10: an out-of-range `get(n)` with `n > 0` raises `OutOfBounds`, but the
cursor's offset has already been advanced by `n` when the error is raised
(the source increments `this.offset` inside the bounds test), so the failed
read mutates the cursor. -/
theorem c10_get_oob_advances_offset (buf : List Nat) (off n : Nat) (h1 : 0 < n)
    (h2 : buf.length < off + n) :
    (BinaryBuffer.get ⟨buf, off⟩ ((n : Nat) : Int)).1 = Except.error JsErr.outOfBounds ∧
    (BinaryBuffer.get ⟨buf, off⟩ ((n : Nat) : Int)).2.offset = off + n := by
  have h3 : ¬((n : Int) < 0) := by omega
  have h4 : ¬((n : Int) = 0) := by omega
  simp [BinaryBuffer.get, h3, h4, h2]

theorem c10_witness :
    (BinaryBuffer.get ⟨[7], 0⟩ ((2 : Nat) : Int)).1 = Except.error JsErr.outOfBounds ∧
    (BinaryBuffer.get ⟨[7], 0⟩ ((2 : Nat) : Int)).2.offset = 0 + 2 :=
  c10_get_oob_advances_offset [7] 0 2 (by norm_num) (by norm_num)

theorem isPrefixOf_eq_take (l z : List Nat) : l.isPrefixOf z = true ↔ z.take l.length = l := by
  induction l generalizing z with
  | nil => simp [List.isPrefixOf]
  | cons a as ih =>
    cases z with
    | nil => simp [List.isPrefixOf]
    | cons b bs =>
      simp only [List.isPrefixOf, Bool.and_eq_true, beq_iff_eq, ih,
        List.length_cons, List.take_succ_cons, List.cons.injEq]
      constructor
      · rintro ⟨h1, h2⟩
        exact ⟨h1.symm, h2⟩
      · rintro ⟨h1, h2⟩
        exact ⟨h1.symm, h2⟩

theorem occursAt_zero_iff (tok s : List Nat) :
    occursAt tok s 0 ↔ tok.isPrefixOf s = true := by
  rw [occursAt, isPrefixOf_eq_take, List.drop_zero]

theorem occursAt_cons (tok : List Nat) (c : Nat) (t : List Nat) (i : Nat) :
    occursAt tok (c :: t) (i + 1) ↔ occursAt tok t i := by
  rw [occursAt, occursAt, List.drop_succ_cons]

theorem jsIndexOf_occurs {s tok : List Nat} {p : Nat}
    (h : jsIndexOf s tok = some p) : occursAt tok s p := by
  induction s generalizing p with
  | nil =>
    rw [jsIndexOf] at h
    by_cases ht : tok = []
    · simp [ht] at h
      subst ht
      simp [← h, occursAt]
    · simp [ht] at h
  | cons c t ih =>
    rw [jsIndexOf] at h
    by_cases hp : tok.isPrefixOf (c :: t) = true
    · simp [hp] at h
      rw [← h, occursAt_zero_iff]
      exact hp
    · simp [hp] at h
      obtain ⟨q, hq, rfl⟩ := h
      rw [occursAt_cons]
      exact ih hq

theorem jsIndexOf_min {s tok : List Nat} {p : Nat}
    (h : jsIndexOf s tok = some p) : ∀ j, j < p → ¬ occursAt tok s j := by
  induction s generalizing p with
  | nil =>
    rw [jsIndexOf] at h
    by_cases ht : tok = []
    · simp [ht] at h
      omega
    · simp [ht] at h
  | cons c t ih =>
    rw [jsIndexOf] at h
    by_cases hp : tok.isPrefixOf (c :: t) = true
    · simp [hp] at h
      omega
    · simp [hp] at h
      obtain ⟨q, hq, rfl⟩ := h
      intro j hj
      cases j with
      | zero =>
        rw [occursAt_zero_iff]
        simp [hp]
      | succ k =>
        rw [occursAt_cons]
        exact ih hq k (by omega)

theorem jsIndexOf_of_min {s tok : List Nat} {p : Nat}
    (h1 : occursAt tok s p) (h2 : ∀ j, j < p → ¬ occursAt tok s j) :
    jsIndexOf s tok = some p := by
  induction s generalizing p with
  | nil =>
    have ht : tok = [] := by
      rw [occursAt] at h1
      simpa using h1.symm
    have hp : p = 0 := by
      by_contra hne
      exact h2 0 (by omega) (by simp [ht, occursAt])
    simp [jsIndexOf, ht, hp]
  | cons c t ih =>
    rw [jsIndexOf]
    by_cases hp : tok.isPrefixOf (c :: t) = true
    · have hz : occursAt tok (c :: t) 0 := (occursAt_zero_iff tok (c :: t)).mpr hp
      have hp0 : p = 0 := by
        by_contra hne
        exact h2 0 (by omega) hz
      simp [hp, hp0]
    · have hp0 : p ≠ 0 := by
        intro hc
        subst hc
        exact hp ((occursAt_zero_iff tok (c :: t)).mp h1)
      obtain ⟨q, rfl⟩ : ∃ q, p = q + 1 := ⟨p - 1, by omega⟩
      rw [occursAt_cons] at h1
      have h2' : ∀ j, j < q → ¬ occursAt tok t j := by
        intro j hj hocc
        exact h2 (j + 1) (by omega) ((occursAt_cons tok c t j).mpr hocc)
      simp [hp, ih h1 h2']

theorem occursAt_length {tok s : List Nat} {i : Nat} (h : occursAt tok s i)
    (hne : tok ≠ []) : i + tok.length ≤ s.length := by
  have hl := congrArg List.length h
  simp only [List.length_take, List.length_drop] at hl
  have hpos : 0 < tok.length := List.length_pos.mpr hne
  omega

theorem occursAt_map {tok s : List Nat} {i : Nat} (f : Nat → Nat)
    (h : occursAt tok s i) : occursAt (tok.map f) (s.map f) i := by
  rw [occursAt, List.length_map, ← List.map_drop, ← List.map_take, h]

theorem occursAt_of_take_eq {tok x y : List Nat} {i m : Nat} (h : occursAt tok x i)
    (heq : x.take m = y.take m) (hlen : i + tok.length ≤ m) : occursAt tok y i := by
  rw [occursAt] at h ⊢
  have key : ∀ z : List Nat,
      ((z.take m).drop i).take tok.length = (z.drop i).take tok.length := by
    intro z
    rw [List.drop_take, List.take_take, min_eq_left (by omega)]
  rw [← key y, ← heq, key x, h]

theorem isPrefixOf_append_self (l r : List Nat) : l.isPrefixOf (l ++ r) = true := by
  rw [isPrefixOf_eq_take]
  exact List.take_left l r

theorem isSuffixOf_append_self (pre l : List Nat) : l.isSuffixOf (pre ++ l) = true := by
  simp only [List.isSuffixOf, List.reverse_append]
  exact isPrefixOf_append_self _ _

/-- C8 (amended: the canonical terminator is 23 octets, not 24): for every
byte string containing the case-insensitive token `__halt_compiler();`,
`setStub` keeps the part before the token's first occurrence and appends the
canonical 23-octet terminator, so the stored stub ends with the terminator,
contains it exactly once, and is a fixed point of `setStub`; a string without
the token is rejected with `InvalidPrelude`. -/
theorem c8_setStub_normalization (s : List Nat) (hb : ∀ c ∈ s, c < 256) :
    STUB_END.length = 23 ∧
    (∀ pos, jsIndexOf (s.map jsToLower) haltToken = some pos →
      setStub s = Except.ok (s.take pos ++ STUB_END) ∧
      STUB_END.isSuffixOf (s.take pos ++ STUB_END) = true ∧
      (∀ i, occursAt STUB_END (s.take pos ++ STUB_END) i ↔ i = pos) ∧
      setStub (s.take pos ++ STUB_END) = Except.ok (s.take pos ++ STUB_END)) ∧
    (jsIndexOf (s.map jsToLower) haltToken = none →
      setStub s = Except.error JsErr.invalidStub) := by
  refine ⟨by decide, ?_, ?_⟩
  · intro pos hpos
    have hstub : STUB_END.map jsToLower = haltToken ++ strBytes (" ?>\r\n") := by decide
    have hlen18 : haltToken.length = 18 := by decide
    have hlen23 : STUB_END.length = 23 := by decide
    have ha : occursAt haltToken (s.map jsToLower) pos := jsIndexOf_occurs hpos
    have hmin := jsIndexOf_min hpos
    have hlenp : pos + 18 ≤ s.length := by
      have := occursAt_length ha (by decide)
      rw [hlen18, List.length_map] at this
      exact this
    have hpre : (s.take pos).length = pos := by
      rw [List.length_take]
      omega
    have hlowp : (s.take pos ++ STUB_END).map jsToLower =
        (s.map jsToLower).take pos ++ (haltToken ++ strBytes (" ?>\r\n")) := by
      rw [List.map_append, hstub, List.map_take]
    have hlowlen : ((s.map jsToLower).take pos).length = pos := by
      rw [List.length_take, List.length_map]
      omega
    have hdrop18 : ((s.map jsToLower).drop pos).take 18 = haltToken := by
      have := ha
      rw [occursAt, hlen18] at this
      exact this
    have htake : ((s.take pos ++ STUB_END).map jsToLower).take (pos + 18) =
        (s.map jsToLower).take (pos + 18) := by
      calc ((s.take pos ++ STUB_END).map jsToLower).take (pos + 18)
          = ((s.map jsToLower).take pos ++ (haltToken ++ strBytes (" ?>\r\n"))).take
              (((s.map jsToLower).take pos).length + 18) := by rw [hlowp, hlowlen]
        _ = (s.map jsToLower).take pos ++ (haltToken ++ strBytes (" ?>\r\n")).take 18 :=
              List.take_append 18
        _ = (s.map jsToLower).take pos ++ ((s.map jsToLower).drop pos).take 18 := by
              rw [(by decide : (haltToken ++ strBytes (" ?>\r\n")).take 18 = haltToken),
                hdrop18]
        _ = (s.map jsToLower).take (pos + 18) := (List.take_add _ pos 18).symm
    have hnoEarly : ∀ i, i < pos →
        ¬ occursAt haltToken ((s.take pos ++ STUB_END).map jsToLower) i := by
      intro i hi hocc
      exact hmin i hi (occursAt_of_take_eq hocc htake (by omega))
    refine ⟨by simp [setStub, hpos], isSuffixOf_append_self _ _, ?_, ?_⟩
    · intro i
      constructor
      · intro hocc
        have hle : i + 23 ≤ pos + 23 := by
          have h1 := occursAt_length hocc (by decide)
          rw [hlen23] at h1
          rw [List.length_append, hpre, hlen23] at h1
          exact h1
        by_contra hne
        have hi : i < pos := by omega
        have h1 : occursAt (STUB_END.map jsToLower)
            ((s.take pos ++ STUB_END).map jsToLower) i := occursAt_map _ hocc
        have h2 : occursAt haltToken ((s.take pos ++ STUB_END).map jsToLower) i := by
          rw [occursAt] at h1 ⊢
          rw [hstub] at h1
          rw [hlen18]
          have h3 := congrArg (List.take 18) h1
          rw [List.take_take] at h3
          rw [(by decide : min 18 (haltToken ++ strBytes (" ?>\r\n")).length = 18)] at h3
          rw [h3]
          decide
        exact hnoEarly i hi h2
      · rintro rfl
        rw [occursAt]
        rw [List.drop_left' hpre]
        exact List.take_length STUB_END
    · have hfix : jsIndexOf ((s.take pos ++ STUB_END).map jsToLower) haltToken =
          some pos := by
        apply jsIndexOf_of_min
        · rw [occursAt, hlowp, List.drop_left' hlowlen, hlen18]
          decide
        · intro j hj
          exact hnoEarly j hj
      have hptake : (s.take pos ++ STUB_END).take pos = s.take pos := by
        rw [List.take_append_of_le_length (by omega), List.take_take,
          min_eq_left (le_refl pos)]
      have hfix2 : jsIndexOf ((s.map jsToLower).take pos ++ STUB_END.map jsToLower)
          haltToken = some pos := by
        rw [← List.map_take, ← List.map_append]
        exact hfix
      simp [setStub, hfix2, hptake]
  · intro hnone
    simp [setStub, hnone]

theorem savePharData_ok {hashF : Nat → List Nat → List Nat}
    {deflate : List Nat → List Nat} {A : Phar} {E : List Nat}
    (hE : savePharData hashF deflate A = Except.ok E) :
    A.files.length ≠ 0 ∧ validSig A.signature_type ∧
    E = encBody deflate A ++ hashF A.signature_type (encBody deflate A) ++
      writeLInt A.signature_type ++ magicBytes := by
  by_cases h0 : A.files.length = 0
  · simp [savePharData, h0] at hE
  · by_cases hv : validSig A.signature_type
    · refine ⟨h0, hv, ?_⟩
      simp [savePharData, h0, hv] at hE
      simpa [List.append_assoc] using hE.symm
    · simp [savePharData, h0, hv] at hE

/-- C4: whenever the encoder succeeds, the produced buffer is exactly the body
(all bytes strictly preceding the digest) followed by the digest of that body
under the declared signature kind, the signature kind as a little-endian u32,
and the 4-octet magic `GBMB`; the digest length is 16/20/32/64 for
MD5/SHA1/SHA256/SHA512 (as delivered by the external hash engine). -/
theorem c4_signature_trailer (hashF : Nat → List Nat → List Nat)
    (deflate : List Nat → List Nat)
    (hlen : ∀ k bs, validSig k → (hashF k bs).length = hashLen k)
    (A : Phar) (E : List Nat) (hE : savePharData hashF deflate A = Except.ok E) :
    validSig A.signature_type ∧
    E = encBody deflate A ++ hashF A.signature_type (encBody deflate A) ++
      writeLInt A.signature_type ++ magicBytes ∧
    (hashF A.signature_type (encBody deflate A)).length =
      hashLen A.signature_type := by
  obtain ⟨h0, hv, hEq⟩ := savePharData_ok hE
  exact ⟨hv, hEq, hlen _ _ hv⟩

theorem c4_witness :
    validSig A0.signature_type ∧
    E1 = encBody id A0 ++ zeroHash A0.signature_type (encBody id A0) ++
      writeLInt A0.signature_type ++ magicBytes ∧
    (zeroHash A0.signature_type (encBody id A0)).length =
      hashLen A0.signature_type :=
  c4_signature_trailer zeroHash id
    (fun k bs hk => List.length_replicate (hashLen k) 0) A0 E1 (by decide)

theorem xor_lt_pow {a b n : Nat} (ha : a < 2 ^ n) (hb : b < 2 ^ n) : a ^^^ b < 2 ^ n := by
  apply Nat.lt_pow_two_of_testBit
  intro i hi
  have h2 : 2 ^ n ≤ 2 ^ i := Nat.pow_le_pow_right (by norm_num) hi
  rw [Nat.testBit_xor, Nat.testBit_lt_two_pow (lt_of_lt_of_le ha h2),
    Nat.testBit_lt_two_pow (lt_of_lt_of_le hb h2)]
  rfl

theorem xor_one_shift_ne (x b : Nat) : x ^^^ (1 <<< b) ≠ x := by
  intro h
  have h2 := congrArg (fun z => z.testBit b) h
  simp [Nat.testBit_xor, Nat.testBit_shiftLeft] at h2

theorem getD_append_left {a b : List Nat} {p : Nat} (h : p < a.length) :
    (a ++ b).getD p 0 = a.getD p 0 := by
  simp [List.getD_eq_getElem?_getD, List.getElem?_append, h]

theorem getD_append_right {a b : List Nat} {p : Nat} (h : a.length ≤ p) :
    (a ++ b).getD p 0 = b.getD (p - a.length) 0 := by
  simp [List.getD_eq_getElem?_getD, List.getElem?_append, Nat.not_lt.mpr h]

theorem flipAt_length (l : List Nat) (p b : Nat) : (flipAt l p b).length = l.length := by
  simp [flipAt]

theorem flipAt_append_left {a b : List Nat} {p bit : Nat} (h : p < a.length) :
    flipAt (a ++ b) p bit = flipAt a p bit ++ b := by
  rw [flipAt, flipAt, getD_append_left h, List.set_append_left _ _ h]

theorem flipAt_append_right {a b : List Nat} {p bit : Nat} (h : a.length ≤ p) :
    flipAt (a ++ b) p bit = a ++ flipAt b (p - a.length) bit := by
  rw [flipAt, flipAt, getD_append_right h, List.set_append_right _ _ h]

theorem flipAt_ne {l : List Nat} {p b : Nat} (h : p < l.length) : flipAt l p b ≠ l := by
  intro he
  have h2 := congrArg (fun z => z.getD p 0) he
  simp only [flipAt, List.getD_eq_getElem?_getD, List.getElem?_set_self
    (by simpa using h)] at h2
  exact xor_one_shift_ne (l.getD p 0) b (by
    simpa [List.getD_eq_getElem?_getD] using h2)

theorem bytesLT_append {a b : List Nat} (ha : bytesLT a) (hb : bytesLT b) :
    bytesLT (a ++ b) := by
  intro c hc
  rcases List.mem_append.mp hc with h | h
  · exact ha c h
  · exact hb c h

theorem bytesLT_writeLInt (n : Nat) : bytesLT (writeLInt n) := by
  intro c hc
  simp [writeLInt] at hc
  obtain ⟨i, _, rfl⟩ := hc
  exact lt_of_le_of_lt Nat.and_le_right (by norm_num)

theorem bytesLT_writeLShort (n : Nat) : bytesLT (writeLShort n) := by
  intro c hc
  simp [writeLShort] at hc
  obtain ⟨i, _, rfl⟩ := hc
  exact lt_of_le_of_lt Nat.and_le_right (by norm_num)

theorem bytesLT_putStrB {s : List Nat} (hs : bytesLT s) : bytesLT (putStrB s) :=
  bytesLT_append (bytesLT_writeLInt _) hs

theorem bytesLT_flatten {L : List (List Nat)} (h : ∀ l ∈ L, bytesLT l) :
    bytesLT L.flatten := by
  intro c hc
  obtain ⟨l, hl, hcl⟩ := List.mem_flatten.mp hc
  exact h l hl c hcl

theorem bytesLT_flipAt {l : List Nat} (hl : bytesLT l) {p b : Nat} (hb : b < 8) :
    bytesLT (flipAt l p b) := by
  intro c hc
  rcases List.mem_or_eq_of_mem_set hc with h | h
  · exact hl c h
  · subst h
    have h1 : l.getD p 0 < 256 := by
      by_cases hp : p < l.length
      · have hgd : l.getD p 0 = l.get ⟨p, hp⟩ := by
          simp [List.getD_eq_getElem?_getD, List.getElem?_eq_getElem hp,
            List.get_eq_getElem]
        rw [hgd]
        exact hl _ (List.get_mem l p hp)
      · simp [List.getD_eq_getElem?_getD, List.getElem?_eq_none (Nat.le_of_not_lt hp)]
    have h2 : (1 <<< b) < 256 := by
      rw [Nat.one_shiftLeft]
      calc 2 ^ b ≤ 2 ^ 7 := Nat.pow_le_pow_right (by norm_num) (by omega)
        _ < 256 := by norm_num
    exact xor_lt_pow (n := 8) h1 h2

theorem bytesLT_encBody {deflate : List Nat → List Nat}
    (hdef : ∀ bs, bytesLT bs → bytesLT (deflate bs)) {A : Phar}
    (hA : pharBytesWF A) : bytesLT (encBody deflate A) := by
  obtain ⟨hstub, halias, hmeta, hfiles⟩ := hA
  have hcc : ∀ f ∈ A.files, bytesLT (getCompressedContents deflate f) := by
    intro f hf
    rw [getCompressedContents]
    by_cases hgz : f.compression_type = 0x1000
    · simp only [hgz, if_pos rfl]
      exact hdef _ (hfiles f hf).2.1
    · simp only [if_neg hgz]
      exact (hfiles f hf).2.1
  refine bytesLT_append (bytesLT_append hstub (bytesLT_putStrB ?_)) ?_
  · refine bytesLT_append (bytesLT_append (bytesLT_append (bytesLT_append
      (bytesLT_append (bytesLT_writeLInt _) (bytesLT_writeLShort _))
      (bytesLT_writeLInt _)) (bytesLT_putStrB halias)) (bytesLT_putStrB hmeta)) ?_
    refine bytesLT_flatten ?_
    intro l hl
    obtain ⟨f, hf, rfl⟩ := List.mem_map.mp hl
    refine bytesLT_append (bytesLT_append (bytesLT_append (bytesLT_append
      (bytesLT_append (bytesLT_append (bytesLT_putStrB (hfiles f hf).1)
      (bytesLT_writeLInt _)) (bytesLT_writeLInt _)) (bytesLT_writeLInt _))
      (bytesLT_writeLInt _)) (bytesLT_writeLInt _)) (bytesLT_putStrB (hfiles f hf).2.2)
  · refine bytesLT_flatten ?_
    intro l hl
    obtain ⟨f, hf, rfl⟩ := List.mem_map.mp hl
    exact hcc f hf

theorem loadPharData_unknownSig (hashF : Nat → List Nat → List Nat)
    (inflate : List Nat → List Nat) (self : Phar) (Q S : List Nat)
    (hS : S.length = 4) (hbad : ¬ validSig (readLInt S)) :
    loadPharData hashF inflate self (Q ++ S ++ magicBytes) =
      Except.error JsErr.unknownSignature := by
  have hM : magicBytes.length = 4 := by decide
  have hL : ((Q ++ S) ++ magicBytes).length = Q.length + 8 := by
    simp [hS, hM]
  have h1 : Q.length + 8 - 4 = (Q ++ S).length := by
    simp [hS]
  have hmagic : ((Q ++ S) ++ magicBytes).drop (Q.length + 8 - 4) = magicBytes := by
    rw [h1]
    exact List.drop_left _ _
  have htake : ((Q ++ S) ++ magicBytes).take (Q.length + 8 - 4) = Q ++ S := by
    rw [h1]
    exact List.take_left _ _
  have h2 : Q.length + 8 - 8 = Q.length := by omega
  have hsig : (((Q ++ S) ++ magicBytes).take (Q.length + 8 - 4)).drop
      (Q.length + 8 - 8) = S := by
    rw [htake, h2]
    exact List.drop_left _ _
  simp only [loadPharData, hL, hmagic, hsig]
  simp [hbad]

theorem loadPharData_badHash (hashF : Nat → List Nat → List Nat)
    (inflate : List Nat → List Nat) (self : Phar) (P D S : List Nat)
    (hS : S.length = 4) (hv : validSig (readLInt S))
    (hD : D.length = hashLen (readLInt S))
    (hne : hashF (readLInt S) P ≠ D) :
    loadPharData hashF inflate self (P ++ D ++ S ++ magicBytes) =
      Except.error JsErr.signatureInvalid := by
  have hM : magicBytes.length = 4 := by decide
  have hL : (((P ++ D) ++ S) ++ magicBytes).length = P.length + D.length + 8 := by
    simp [hS, hM]
    omega
  have h1 : P.length + D.length + 8 - 4 = ((P ++ D) ++ S).length := by
    simp [hS]
    omega
  have hmagic : (((P ++ D) ++ S) ++ magicBytes).drop
      (P.length + D.length + 8 - 4) = magicBytes := by
    rw [h1]
    exact List.drop_left _ _
  have htake : (((P ++ D) ++ S) ++ magicBytes).take
      (P.length + D.length + 8 - 4) = (P ++ D) ++ S := by
    rw [h1]
    exact List.take_left _ _
  have h2 : P.length + D.length + 8 - 8 = (P ++ D).length := by
    simp
  have hsig : ((((P ++ D) ++ S) ++ magicBytes).take
      (P.length + D.length + 8 - 4)).drop (P.length + D.length + 8 - 8) = S := by
    rw [htake, h2]
    exact List.drop_left _ _
  have htake8 : (((P ++ D) ++ S) ++ magicBytes).take
      (P.length + D.length + 8 - 8) = P ++ D := by
    rw [h2, List.append_assoc]
    exact List.take_left _ _
  have h3 : P.length + D.length + 8 - 8 - hashLen (readLInt S) = P.length := by
    rw [← hD]
    omega
  have hhash : ((((P ++ D) ++ S) ++ magicBytes).take
      (P.length + D.length + 8 - 8)).drop
      (P.length + D.length + 8 - 8 - hashLen (readLInt S)) = D := by
    rw [htake8, h3]
    exact List.drop_left _ _
  have hbody : (((P ++ D) ++ S) ++ magicBytes).take
      (P.length + D.length + 8 - 8 - hashLen (readLInt S)) = P := by
    rw [h3, List.append_assoc, List.append_assoc]
    exact List.take_left _ _
  simp only [loadPharData, hL, hmagic, hsig, hhash, hbody]
  simp [hv, hne]

theorem readLInt_flip_invalid (st : Nat) (hst : validSig st) :
    ∀ q, q < 4 → ∀ b, b < 8 →
      ¬ validSig (readLInt (flipAt (writeLInt st) q b)) := by
  rcases hst with rfl | rfl | rfl | rfl <;> decide

theorem writeLInt_length (n : Nat) : (writeLInt n).length = 4 := by
  simp [writeLInt]

/-- C2 (amended): for every validly encoded buffer and every single-bit flip
strictly before the magic trailer, decoding fails with one of the integrity
error kinds (including `UnknownSignature`, raised when the flip lands in the
signature-kind field); it never succeeds.  A flip in the body or the digest
yields `SignatureInvalid` because the external hash engine is
collision-resistant (modelled: injective on octet strings). -/
theorem c2_bit_flip_never_silent (hashF : Nat → List Nat → List Nat)
    (deflate inflate : List Nat → List Nat) (self : Phar)
    (hlen : ∀ k bs, validSig k → (hashF k bs).length = hashLen k)
    (hinj : ∀ k b1 b2, bytesLT b1 → bytesLT b2 → hashF k b1 = hashF k b2 → b1 = b2)
    (hdef : ∀ bs, bytesLT bs → bytesLT (deflate bs))
    (A : Phar) (hA : pharBytesWF A) (E : List Nat)
    (hE : savePharData hashF deflate A = Except.ok E)
    (p b : Nat) (hp : p + 4 < E.length) (hb : b < 8) :
    ∃ e, loadPharData hashF inflate self (flipAt E p b) = Except.error e ∧
      (e = JsErr.signatureInvalid ∨ e = JsErr.fileCorrupt ∨
       e = JsErr.outOfBounds ∨ e = JsErr.stubNotFound ∨
       e = JsErr.unknownSignature) := by
  obtain ⟨h0, hv, hEq⟩ := savePharData_ok hE
  subst hEq
  have hσ32 : A.signature_type < 2 ^ 32 := by
    rcases hv with h | h | h | h <;> rw [h] <;> norm_num
  have hrw : readLInt (writeLInt A.signature_type) = A.signature_type :=
    readLInt_writeLInt _ hσ32
  have hDlen : (hashF A.signature_type (encBody deflate A)).length =
      hashLen A.signature_type := hlen _ _ hv
  have hBbytes : bytesLT (encBody deflate A) := bytesLT_encBody hdef hA
  have hS4 : (writeLInt A.signature_type).length = 4 := writeLInt_length _
  have hM4 : magicBytes.length = 4 := by decide
  have hplt : p < (encBody deflate A).length + hashLen A.signature_type + 4 := by
    have := hp
    simp only [List.length_append, hDlen, hS4, hM4] at this
    omega
  by_cases hpB : p < (encBody deflate A).length
  · -- the flip lands in the body: the recomputed digest no longer matches
    have hsplit : flipAt (encBody deflate A ++
        hashF A.signature_type (encBody deflate A) ++
        writeLInt A.signature_type ++ magicBytes) p b =
        flipAt (encBody deflate A) p b ++
        hashF A.signature_type (encBody deflate A) ++
        writeLInt A.signature_type ++ magicBytes := by
      rw [flipAt_append_left (by simp [hDlen, hS4]; omega),
        flipAt_append_left (by simp [hDlen]; omega),
        flipAt_append_left hpB]
    refine ⟨JsErr.signatureInvalid, ?_, Or.inl rfl⟩
    rw [hsplit]
    apply loadPharData_badHash hashF inflate self _ _ _ hS4 (by rw [hrw]; exact hv)
      (by rw [hrw]; exact hDlen)
    rw [hrw]
    intro hcontra
    exact flipAt_ne hpB
      (hinj _ _ _ (bytesLT_flipAt hBbytes hb) hBbytes hcontra)
  · by_cases hpD : p < (encBody deflate A).length + hashLen A.signature_type
    · -- the flip lands in the stored digest
      have hq : p - (encBody deflate A).length <
          (hashF A.signature_type (encBody deflate A)).length := by
        rw [hDlen]
        omega
      have hsplit : flipAt (encBody deflate A ++
          hashF A.signature_type (encBody deflate A) ++
          writeLInt A.signature_type ++ magicBytes) p b =
          (encBody deflate A ++
            flipAt (hashF A.signature_type (encBody deflate A))
              (p - (encBody deflate A).length) b) ++
          writeLInt A.signature_type ++ magicBytes := by
        rw [flipAt_append_left (by simp [hDlen, hS4]; omega),
          flipAt_append_left (by simp [hDlen]; omega),
          flipAt_append_right (by omega)]
      refine ⟨JsErr.signatureInvalid, ?_, Or.inl rfl⟩
      rw [hsplit, List.append_assoc (encBody deflate A), ← List.append_assoc]
      apply loadPharData_badHash hashF inflate self _ _ _ hS4 (by rw [hrw]; exact hv)
        (by rw [hrw, flipAt_length]; exact hDlen)
      rw [hrw]
      intro hcontra
      exact flipAt_ne hq hcontra.symm
    · -- the flip lands in the signature-kind field
      have hq4 : p - (encBody deflate A).length - hashLen A.signature_type < 4 := by
        omega
      have hsplit : flipAt (encBody deflate A ++
          hashF A.signature_type (encBody deflate A) ++
          writeLInt A.signature_type ++ magicBytes) p b =
          (encBody deflate A ++ hashF A.signature_type (encBody deflate A)) ++
          flipAt (writeLInt A.signature_type)
            (p - (encBody deflate A).length - hashLen A.signature_type) b ++
          magicBytes := by
        rw [flipAt_append_left (by simp [hDlen, hS4]; omega),
          flipAt_append_right (by simp [hDlen]; omega),
          List.length_append, hDlen, ← Nat.sub_sub]
      refine ⟨JsErr.unknownSignature, ?_, Or.inr (Or.inr (Or.inr (Or.inr rfl)))⟩
      rw [hsplit]
      apply loadPharData_unknownSig hashF inflate self _ _
        (by rw [flipAt_length]; exact hS4)
      exact readLInt_flip_invalid _ hv _ hq4 _ hb

theorem injHash_bytes_inj (k : Nat) (b1 b2 : List Nat) (h1 : bytesLT b1)
    (h2 : bytesLT b2) (he : injHash k b1 = injHash k b2) : b1 = b2 := by
  have hv : Nat.ofDigits 257 (b1.map (· + 1)) =
      Nat.ofDigits 257 (b2.map (· + 1)) := by
    simpa [injHash] using congrArg (fun l => l.headD 0) he
  have hd : ∀ b : List Nat, bytesLT b →
      Nat.digits 257 (Nat.ofDigits 257 (b.map (· + 1))) = b.map (· + 1) := by
    intro b hb
    apply Nat.digits_ofDigits 257 (by norm_num)
    · intro l hl
      obtain ⟨c, hc, rfl⟩ := List.mem_map.mp hl
      have := hb c hc
      omega
    · intro hne
      have hm : (b.map (· + 1)).getLast hne ∈ b.map (· + 1) := List.getLast_mem hne
      obtain ⟨c, hc, hcl⟩ := List.mem_map.mp hm
      omega
  have hfin := hd b1 h1
  rw [hv, hd b2 h2] at hfin
  have hmapinj : Function.Injective (List.map (fun c : Nat => c + 1)) :=
    List.map_injective_iff.mpr (fun x y hxy => by omega)
  exact (hmapinj hfin).symm

theorem injHash_length (k : Nat) (bs : List Nat) (hk : validSig k) :
    (injHash k bs).length = hashLen k := by
  rcases hk with h | h | h | h <;> subst h <;> simp [injHash, hashLen]

theorem c2_witness :
    ∃ e, loadPharData injHash id A0 (flipAt E2 0 0) = Except.error e ∧
      (e = JsErr.signatureInvalid ∨ e = JsErr.fileCorrupt ∨
       e = JsErr.outOfBounds ∨ e = JsErr.stubNotFound ∨
       e = JsErr.unknownSignature) :=
  c2_bit_flip_never_silent injHash id id A0 injHash_length injHash_bytes_inj
    (fun bs h => h) A0 (by decide) E2 (by decide) 0 0 (by decide) (by norm_num)

/-- C8 counterexample: the canonical terminator the code appends,
`__HALT_COMPILER(); ?>\r\n`, is 23 octets long, not 24 as the claim states;
at the minimal input the whole prelude is exactly that 23-octet terminator. -/
theorem c8_counterexample_terminator_is_23_octets :
    setStub (strBytes ("__halt_compiler();")) = Except.ok STUB_END ∧
    STUB_END.length = 23 ∧ STUB_END.length ≠ 24 := by
  decide

theorem c8_witness :
    setStub (strBytes ("<?php echo 1; __HALT_compiler(); junk")) =
      Except.ok ((strBytes ("<?php echo 1; __HALT_compiler(); junk")).take 14 ++
        STUB_END) ∧
    STUB_END.isSuffixOf ((strBytes ("<?php echo 1; __HALT_compiler(); junk")).take 14
      ++ STUB_END) = true ∧
    occursAt STUB_END ((strBytes ("<?php echo 1; __HALT_compiler(); junk")).take 14
      ++ STUB_END) 14 ∧
    setStub ((strBytes ("<?php echo 1; __HALT_compiler(); junk")).take 14 ++
      STUB_END) =
      Except.ok ((strBytes ("<?php echo 1; __HALT_compiler(); junk")).take 14 ++
        STUB_END) := by
  have h := (c8_setStub_normalization
    (strBytes ("<?php echo 1; __HALT_compiler(); junk")) (by decide)).2.1 14
    (by decide)
  exact ⟨h.1, h.2.1, (h.2.2.1 14).mpr rfl, h.2.2.2⟩
